import Mathlib

/-!
# Verification of the layered drawing-canvas engine

Shallow embedding of the core of `src/components/DrawingCanvas.tsx`
(multi-layer raster canvas: per-layer undo/redo history, layer store,
view transform, vanishing-point snapping, stroke renderers, resize
pipeline, anchor points), with theorems settling the spec claims.

Rasters are modelled as raw byte buffers (`List Nat`, the bytes of an
`ImageData`); geometry that the source computes with JS floating point
is modelled over `ℝ` (trigonometry, square roots) or `ℚ` (exact
rational arithmetic) as appropriate.
-/

namespace LayoutCanvas

/-- A raster snapshot: the byte buffer of one layer's `ImageData`. -/
abbrev Raster := List Nat

/-- Per-layer undo history, mirroring `interface HistoryState`
(DrawingCanvas.tsx lines 85-88): a snapshot stack plus the current
index.  The index is an integer because the source uses `-1` as the
index of the default empty history (line 785). -/
structure HistoryState where
  stack : List Raster
  index : Int
  deriving DecidableEq

/-- `MAX_HISTORY_STATES` (DrawingCanvas.tsx line 101). -/
def MAX_HISTORY_STATES : Nat := 30

/-- Core of `saveState` (DrawingCanvas.tsx lines 776-802): truncate the
redo tail (`stack.slice(0, index + 1)`), push the current raster, then
evict oldest entries (`while (newStack.length > MAX_HISTORY_STATES)
newStack.shift()`), and point the index at the new top. -/
def saveState (h : HistoryState) (cur : Raster) : HistoryState :=
  let newStack := h.stack.take (h.index + 1).toNat ++ [cur]
  let trimmed :=
    if MAX_HISTORY_STATES < newStack.length then
      newStack.drop (newStack.length - MAX_HISTORY_STATES)
    else newStack
  { stack := trimmed, index := (trimmed.length : Int) - 1 }

/-- The state of one layer during interaction: its history plus the
current raster of its backing canvas element. -/
structure LayerState where
  hist : HistoryState
  raster : Raster
  deriving DecidableEq

/-- `handleUndo` (DrawingCanvas.tsx lines 864-884): if `index > 0`,
decrement the index and repaint the raster from the snapshot at the new
index (`clearRect` followed by `putImageData`); otherwise a no-op. -/
def handleUndo (s : LayerState) : LayerState :=
  if 0 < s.hist.index then
    let newIndex := s.hist.index - 1
    { hist := { s.hist with index := newIndex },
      raster := s.hist.stack.getD newIndex.toNat [] }
  else s

/-- `handleRedo` (DrawingCanvas.tsx lines 886-906): if
`index < stack.length - 1`, increment the index and repaint from the
snapshot at the new index; otherwise a no-op. -/
def handleRedo (s : LayerState) : LayerState :=
  if s.hist.index < (s.hist.stack.length : Int) - 1 then
    let newIndex := s.hist.index + 1
    { hist := { s.hist with index := newIndex },
      raster := s.hist.stack.getD newIndex.toNat [] }
  else s

/-- One complete drawing operation on a layer, as the interaction
controller performs it: `startDrawing` first calls `saveState` (line
1959), snapshotting the raster as it is *before* the stroke, and the
stroke then mutates the raster (`stopDrawing`, lines 2132-2160). -/
def drawOp (f : Raster → Raster) (s : LayerState) : LayerState :=
  { hist := saveState s.hist s.raster, raster := f s.raster }

/-- A freshly seeded layer: history `{ stack: [blank], index: 0 }`
with a blank raster, as produced at document init (line 1140) and by
`addSketchLayer` (line 939). -/
def seededLayer (b : Raster) : LayerState :=
  { hist := { stack := [b], index := 0 }, raster := b }

/-- Apply a sequence of drawing operations in order. -/
def applyOps (fs : List (Raster → Raster)) (s : LayerState) : LayerState :=
  fs.foldl (fun st f => drawOp f st) s

/-- The rasters observed *before* each successive operation:
`preStates [f1, ..., fn] r = [r, f1 r, f2 (f1 r), ...]` (length `n`). -/
def preStates : List (Raster → Raster) → Raster → List Raster
  | [], _ => []
  | f :: fs, r => r :: preStates fs (f r)

/-- The raster after applying a whole list of operations. -/
def finalRaster (fs : List (Raster → Raster)) (r : Raster) : Raster :=
  fs.foldl (fun acc f => f acc) r

theorem preStates_length (fs : List (Raster → Raster)) (r : Raster) :
    (preStates fs r).length = fs.length := by
  induction fs generalizing r with
  | nil => rfl
  | cons f fs ih => simp [preStates, ih]

theorem finalRaster_append (fs : List (Raster → Raster))
    (g : Raster → Raster) (r : Raster) :
    finalRaster (fs ++ [g]) r = g (finalRaster fs r) := by
  simp [finalRaster]

theorem preStates_append (fs : List (Raster → Raster))
    (g : Raster → Raster) (r : Raster) :
    preStates (fs ++ [g]) r = preStates fs r ++ [finalRaster fs r] := by
  induction fs generalizing r with
  | nil => simp [preStates, finalRaster]
  | cons f fs ih => simp [preStates, ih, finalRaster]

/-- Characterization of a run of `n ≤ 29` drawing operations from a
seeded layer: the stack holds the seed snapshot followed by the
pre-operation snapshots, the index sits at the top, and the raster is
the final drawing result.  (The bound keeps every push below the
eviction cap.) -/
theorem applyOps_seeded (fs : List (Raster → Raster)) (b : Raster)
    (h : fs.length ≤ MAX_HISTORY_STATES - 1) :
    applyOps fs (seededLayer b) =
      { hist := { stack := b :: preStates fs b, index := (fs.length : Int) },
        raster := finalRaster fs b } := by
  induction fs using List.reverseRecOn with
  | nil => rfl
  | append_singleton gs g ih =>
    have h29 : gs.length + 1 ≤ 29 := by
      have h2 : (gs ++ [g]).length ≤ 29 := h
      simpa using h2
    have hgs : gs.length ≤ MAX_HISTORY_STATES - 1 := by
      show gs.length ≤ 29
      omega
    have step : applyOps (gs ++ [g]) (seededLayer b)
        = drawOp g (applyOps gs (seededLayer b)) := by
      simp [applyOps]
    rw [step, ih hgs]
    simp only [drawOp, saveState]
    have hlen : ((b :: preStates gs b).take ((gs.length : Int) + 1).toNat)
        = b :: preStates gs b := by
      apply List.take_of_length_le
      simp [preStates_length]
    rw [hlen]
    have hlen2 : (b :: preStates gs b ++ [finalRaster gs b]).length
        = gs.length + 2 := by
      simp [preStates_length]
    have hcond : ¬ MAX_HISTORY_STATES <
        (b :: preStates gs b ++ [finalRaster gs b]).length := by
      rw [hlen2, show MAX_HISTORY_STATES = 30 from rfl]
      omega
    rw [if_neg hcond]
    rw [preStates_append, finalRaster_append]
    refine congrArg₂ LayerState.mk (congrArg₂ HistoryState.mk rfl ?_) rfl
    rw [hlen2]
    simp
    omega

/-- Iterating `handleUndo` `k` times (for `1 ≤ k ≤ index`) walks the
index down by `k` and repaints the raster from the snapshot there. -/
theorem handleUndo_iterate (k : Nat) (st : List Raster) (i : Int)
    (r : Raster) (hk1 : 1 ≤ k) (hk : (k : Int) ≤ i) :
    handleUndo^[k] ⟨⟨st, i⟩, r⟩ = ⟨⟨st, i - k⟩, st.getD (i - k).toNat []⟩ := by
  induction k generalizing i r with
  | zero => omega
  | succ n ih =>
    have hi : 0 < i := by omega
    have hstep : handleUndo ⟨⟨st, i⟩, r⟩
        = ⟨⟨st, i - 1⟩, st.getD (i - 1).toNat []⟩ := by
      simp [handleUndo, hi]
    rcases Nat.eq_zero_or_pos n with hn | hn
    · subst hn
      simpa using hstep
    · rw [Function.iterate_succ_apply, hstep]
      have := ih (i - 1) (st.getD (i - 1).toNat []) hn (by omega)
      rw [this]
      congr 2
      · omega
      · congr 1
        omega

/-- Iterating `handleRedo` `k` times (staying within the stack) walks
the index up by `k` and repaints from the snapshot there. -/
theorem handleRedo_iterate (k : Nat) (st : List Raster) (i : Int)
    (r : Raster) (hk1 : 1 ≤ k) (hk : i + k ≤ (st.length : Int) - 1) :
    handleRedo^[k] ⟨⟨st, i⟩, r⟩ = ⟨⟨st, i + k⟩, st.getD (i + k).toNat []⟩ := by
  induction k generalizing i r with
  | zero => omega
  | succ n ih =>
    have hi : i < (st.length : Int) - 1 := by omega
    have hstep : handleRedo ⟨⟨st, i⟩, r⟩
        = ⟨⟨st, i + 1⟩, st.getD (i + 1).toNat []⟩ := by
      simp [handleRedo, hi]
    rcases Nat.eq_zero_or_pos n with hn | hn
    · subst hn
      simpa using hstep
    · rw [Function.iterate_succ_apply, hstep]
      have := ih (i + 1) (st.getD (i + 1).toNat []) hn (by omega)
      rw [this]
      congr 2
      · omega
      · congr 1
        omega

/-- The last pre-operation snapshot is the raster after all but the
final operation. -/
theorem preStates_getD_last (fs : List (Raster → Raster)) (b : Raster)
    (h : 1 ≤ fs.length) :
    (preStates fs b).getD (fs.length - 1) [] = finalRaster fs.dropLast b := by
  induction fs using List.reverseRecOn with
  | nil => simp at h
  | append_singleton gs g ih =>
    rw [preStates_append]
    simp [List.getD_append_right, preStates_length]

/-- C1 (amended).  For any non-empty sequence of at most 29 drawing
operations on a seeded layer (each preceded by its `saveState`
snapshot), undoing once per operation restores the blank seed raster
byte-for-byte; but redoing once per operation then restores the
snapshot taken *before* the final operation (the raster after the
first `N - 1` operations), not the final post-operation raster, since
no snapshot is ever taken at stroke end. -/
theorem C1_undo_restores_blank_redo_restores_penultimate
    (fs : List (Raster → Raster)) (b : Raster)
    (h1 : 1 ≤ fs.length) (h2 : fs.length ≤ MAX_HISTORY_STATES - 1) :
    (handleUndo^[fs.length] (applyOps fs (seededLayer b))).raster = b ∧
    (handleRedo^[fs.length]
        (handleUndo^[fs.length] (applyOps fs (seededLayer b)))).raster
      = finalRaster fs.dropLast b := by
  have hchar := applyOps_seeded fs b h2
  have hstacklen : (b :: preStates fs b).length = fs.length + 1 := by
    simp [preStates_length]
  have hu : handleUndo^[fs.length] (applyOps fs (seededLayer b))
      = ⟨⟨b :: preStates fs b, 0⟩, b⟩ := by
    rw [hchar]
    have := handleUndo_iterate fs.length (b :: preStates fs b)
        (fs.length : Int) (finalRaster fs b) h1 (le_refl _)
    rw [this]
    simp
  have hr : handleRedo^[fs.length]
        (⟨⟨b :: preStates fs b, 0⟩, b⟩ : LayerState)
      = ⟨⟨b :: preStates fs b, (fs.length : Int)⟩,
          (b :: preStates fs b).getD fs.length []⟩ := by
    have := handleRedo_iterate fs.length (b :: preStates fs b) 0 b h1
        (by rw [hstacklen]; push_cast; omega)
    simpa using this
  refine ⟨by rw [hu], ?_⟩
  rw [hu, hr]
  show (b :: preStates fs b).getD fs.length [] = finalRaster fs.dropLast b
  obtain ⟨m, hm⟩ : ∃ m, fs.length = m + 1 := ⟨fs.length - 1, by omega⟩
  rw [hm, List.getD_cons_succ]
  have := preStates_getD_last fs b h1
  rw [hm] at this
  simpa using this

/-- C1 counterexample.  One drawing operation turns the blank raster
`[0]` into `[1]`; a single undo restores `[0]` as the claim states, but
a single redo yields `[0]` again, not the final raster `[1]` — the
claim that redo restores the final post-operation raster byte-for-byte
is false because `saveState` only snapshots *before* each stroke. -/
theorem C1_counterexample_redo_loses_final_state :
    (applyOps [fun _ => [1]] (seededLayer [0])).raster = [1] ∧
    (handleUndo^[1] (applyOps [fun _ => [1]] (seededLayer [0]))).raster
      = [0] ∧
    (handleRedo^[1] (handleUndo^[1]
        (applyOps [fun _ => [1]] (seededLayer [0])))).raster = [0] ∧
    (handleRedo^[1] (handleUndo^[1]
        (applyOps [fun _ => [1]] (seededLayer [0])))).raster
      ≠ (applyOps [fun _ => [1]] (seededLayer [0])).raster := by
  refine ⟨rfl, rfl, rfl, by decide⟩

/-- Concrete two-operation run used to witness the amended C1. -/
def c1WitnessOps : List (Raster → Raster) := [fun _ => [1], fun r => 0 :: r]

theorem C1_amended_witness :
    1 ≤ c1WitnessOps.length ∧
    c1WitnessOps.length ≤ MAX_HISTORY_STATES - 1 ∧
    ((handleUndo^[c1WitnessOps.length]
        (applyOps c1WitnessOps (seededLayer [0]))).raster = [0] ∧
      (handleRedo^[c1WitnessOps.length]
          (handleUndo^[c1WitnessOps.length]
            (applyOps c1WitnessOps (seededLayer [0])))).raster
        = finalRaster c1WitnessOps.dropLast [0]) :=
  ⟨by decide, by decide,
    C1_undo_restores_blank_redo_restores_penultimate c1WitnessOps [0]
      (by decide) (by decide)⟩

/-! ### C2: history cap and index invariant -/

/-- The operations that touch a layer's history: a full drawing
operation (which calls `saveState` first), undo, redo. -/
inductive CanvasOp where
  | draw (f : Raster → Raster)
  | undo
  | redo

/-- Dispatch one interaction-controller operation on a layer. -/
def applyCanvasOp (s : LayerState) : CanvasOp → LayerState
  | .draw f => drawOp f s
  | .undo => handleUndo s
  | .redo => handleRedo s

/-- Apply a sequence of history-touching operations in order. -/
def applyCanvasOps (ops : List CanvasOp) (s : LayerState) : LayerState :=
  ops.foldl applyCanvasOp s

/-- The history-store invariant claimed by the spec: the index is in
bounds and the stack never exceeds the cap. -/
def HistoryInvariant (h : HistoryState) : Prop :=
  0 ≤ h.index ∧ h.index < (h.stack.length : Int) ∧
    h.stack.length ≤ MAX_HISTORY_STATES

theorem saveState_invariant (h : HistoryState) (cur : Raster) :
    HistoryInvariant (saveState h cur) := by
  simp only [saveState, HistoryInvariant, MAX_HISTORY_STATES]
  by_cases hc :
      30 < (h.stack.take (h.index + 1).toNat ++ [cur]).length
  · rw [if_pos hc]
    have hdlen :
        ((h.stack.take (h.index + 1).toNat ++ [cur]).drop
          ((h.stack.take (h.index + 1).toNat ++ [cur]).length - 30)).length
          = 30 := by
      rw [List.length_drop]
      omega
    rw [hdlen]
    refine ⟨by omega, by omega, by omega⟩
  · rw [if_neg hc]
    have hge : 1 ≤ (h.stack.take (h.index + 1).toNat ++ [cur]).length := by
      simp
    refine ⟨by omega, by omega, by omega⟩

theorem handleUndo_invariant (s : LayerState)
    (hInv : HistoryInvariant s.hist) :
    HistoryInvariant (handleUndo s).hist := by
  obtain ⟨ha, hb, hc⟩ := hInv
  simp only [handleUndo]
  split_ifs with h0
  · dsimp only [HistoryInvariant]
    exact ⟨by omega, by omega, hc⟩
  · exact ⟨ha, hb, hc⟩

theorem handleRedo_invariant (s : LayerState)
    (hInv : HistoryInvariant s.hist) :
    HistoryInvariant (handleRedo s).hist := by
  obtain ⟨ha, hb, hc⟩ := hInv
  simp only [handleRedo]
  split_ifs with h0
  · dsimp only [HistoryInvariant]
    exact ⟨by omega, by omega, hc⟩
  · exact ⟨ha, hb, hc⟩

theorem applyCanvasOps_invariant (ops : List CanvasOp) (s : LayerState)
    (hInv : HistoryInvariant s.hist) :
    HistoryInvariant (applyCanvasOps ops s).hist := by
  induction ops generalizing s with
  | nil => exact hInv
  | cons op ops ih =>
    have hstep : HistoryInvariant (applyCanvasOp s op).hist := by
      cases op with
      | draw f => exact saveState_invariant s.hist s.raster
      | undo => exact handleUndo_invariant s hInv
      | redo => exact handleRedo_invariant s hInv
    have : applyCanvasOps (op :: ops) s
        = applyCanvasOps ops (applyCanvasOp s op) := rfl
    rw [this]
    exact ih _ hstep

/-- C2.  Starting from any seeded layer, after every sequence of
history operations the stack length never exceeds
`MAX_HISTORY_STATES = 30` and `0 ≤ index < stack.length`; moreover
whenever a push would exceed the cap, `saveState` evicts exactly the
oldest entries (it drops from the front of the pushed stack). -/
theorem C2_history_cap_and_index_invariant (b : Raster)
    (ops : List CanvasOp) :
    HistoryInvariant (applyCanvasOps ops (seededLayer b)).hist ∧
    (∀ (h : HistoryState) (cur : Raster),
      MAX_HISTORY_STATES <
          (h.stack.take (h.index + 1).toNat ++ [cur]).length →
      (saveState h cur).stack
        = (h.stack.take (h.index + 1).toNat ++ [cur]).drop
            ((h.stack.take (h.index + 1).toNat ++ [cur]).length
              - MAX_HISTORY_STATES)) := by
  constructor
  · apply applyCanvasOps_invariant
    simp [seededLayer, HistoryInvariant, MAX_HISTORY_STATES]
  · intro h cur hlt
    simp only [saveState, if_pos hlt]

theorem C2_witness :
    MAX_HISTORY_STATES <
        (((⟨List.replicate 30 [], 29⟩ : HistoryState).stack.take
            ((29 : Int) + 1).toNat ++ [[7]]).length) ∧
    (saveState ⟨List.replicate 30 [], 29⟩ [[7]].head!).stack
      = (((⟨List.replicate 30 [], 29⟩ : HistoryState).stack.take
            ((29 : Int) + 1).toNat ++ [[7]]).drop
          ((((⟨List.replicate 30 [], 29⟩ : HistoryState).stack.take
            ((29 : Int) + 1).toNat ++ [[7]]).length)
            - MAX_HISTORY_STATES)) :=
  ⟨by decide,
    (C2_history_cap_and_index_invariant [] []).2
      ⟨List.replicate 30 [], 29⟩ [7] (by decide)⟩

/-! ### Layer store: `addSketchLayer` (C6) and `deleteLayer` (C7) -/

/-- An anchor (character) point stored on a layer
(`interface CharacterPoint` in types.ts): fractional position in
percent of the canvas dimensions, fractional radius, display color,
owning character name. -/
structure CharacterPoint where
  id : Nat
  x : ℚ
  y : ℚ
  characterName : String
  radius : ℚ
  color : String
  deriving DecidableEq

/-- A sketch layer's metadata (`interface Layer`): stable id, display
name, visibility, blend mode, opacity and its anchor points.  The
style-reference image list is omitted — no claim depends on it. -/
structure Layer where
  id : Nat
  name : String
  isVisible : Bool
  blendMode : String
  opacity : ℚ
  points : List CharacterPoint
  deriving DecidableEq

/-- The layer-store part of the component state: the ordered layer
list (index 0 is the bottom of the stack; the composite draws in list
order, line 755), the active layer id, the default-name counter, and
the per-layer histories keyed by layer id (modelled as an association
list where the first matching key wins, like a JS object spread). -/
structure DocState where
  layers : List Layer
  activeLayerId : Option Nat
  layerCounter : Nat
  history : List (Nat × HistoryState)
  deriving DecidableEq

/-- Default layer name (DrawingCanvas.tsx line 912). -/
def layerName (n : Nat) : String := "레이어 " ++ toString n

/-- JS `Array.prototype.findIndex`: first matching index, `-1` when no
element matches. -/
def findIndexLike (p : Layer → Bool) (l : List Layer) : Int :=
  match l.findIdx? p with
  | some n => (n : Int)
  | none => -1

/-- JS `Array.prototype.splice(k, 0, a)`: insert `a` at position `k`
(clamped to the array length). -/
def spliceInsert (l : List Layer) (k : Nat) (a : Layer) : List Layer :=
  l.take k ++ a :: l.drop k

/-- Lookup in the per-layer history table. -/
def histLookup (h : List (Nat × HistoryState)) (id : Nat) :
    Option HistoryState :=
  (h.find? (fun p => p.1 == id)).map (fun p => p.2)

/-- `addSketchLayer` (DrawingCanvas.tsx lines 908-943): build a fresh
empty layer named from the counter, splice it in immediately after the
active layer (`splice(activeIndex + 1, 0, newLayer)`), bump the
counter, make it active, and seed its history with one blank snapshot
(the deferred `setHistory` at lines 931-942).  `newId` stands for the
`Date.now()` timestamp id. -/
def addSketchLayer (doc : DocState) (newId : Nat) (blank : Raster) :
    DocState :=
  let newLayer : Layer :=
    { id := newId, name := layerName doc.layerCounter, isVisible := true,
      blendMode := "source-over", opacity := 1, points := [] }
  let activeIndex :=
    findIndexLike (fun l => doc.activeLayerId == some l.id) doc.layers
  { layers := spliceInsert doc.layers (activeIndex + 1).toNat newLayer,
    activeLayerId := some newId,
    layerCounter := doc.layerCounter + 1,
    history := (newId, { stack := [blank], index := 0 }) :: doc.history }

/-- `deleteLayer` (DrawingCanvas.tsx lines 2486-2506): silent no-op on
the last remaining layer; otherwise drop the layer, delete its history
entry, and — when it was active — select
`newLayers[Math.max(0, layerIndex - 1)]?.id || null` (the `|| null`
turns a zero id into `null`; layer ids are `Date.now()` values). -/
def deleteLayer (doc : DocState) (id : Nat) : DocState :=
  if doc.layers.length ≤ 1 then doc
  else
    let layerIndex := findIndexLike (fun l => l.id == id) doc.layers
    let newLayers := doc.layers.filter (fun l => l.id != id)
    let newHistory := doc.history.filter (fun p => p.1 != id)
    let newActive :=
      if doc.activeLayerId == some id then
        (match newLayers[(max 0 (layerIndex - 1)).toNat]? with
          | some l => if l.id = 0 then none else some l.id
          | none => none)
      else doc.activeLayerId
    { doc with
        layers := newLayers,
        history := newHistory,
        activeLayerId := newActive }

theorem spliceInsert_length (l : List Layer) (k : Nat) (a : Layer)
    (hk : k ≤ l.length) : (spliceInsert l k a).length = l.length + 1 := by
  simp [spliceInsert]
  omega

theorem spliceInsert_take (l : List Layer) (k : Nat) (a : Layer)
    (hk : k ≤ l.length) : (spliceInsert l k a).take k = l.take k := by
  unfold spliceInsert
  rw [List.take_left']
  simp
  omega

theorem spliceInsert_drop_eq_cons (l : List Layer) (k : Nat) (a : Layer)
    (hk : k ≤ l.length) : (spliceInsert l k a).drop k = a :: l.drop k := by
  unfold spliceInsert
  rw [List.drop_left']
  simp
  omega

theorem spliceInsert_drop (l : List Layer) (k : Nat) (a : Layer)
    (hk : k ≤ l.length) :
    (spliceInsert l k a).drop (k + 1) = l.drop k := by
  have h1 : (spliceInsert l k a).drop (k + 1)
      = ((spliceInsert l k a).drop k).drop 1 := by
    rw [List.drop_drop]
  rw [h1, spliceInsert_drop_eq_cons l k a hk]
  simp

theorem spliceInsert_getElem (l : List Layer) (k : Nat) (a : Layer)
    (hk : k ≤ l.length) : (spliceInsert l k a)[k]? = some a := by
  unfold spliceInsert
  have hlen : (l.take k).length = k := by
    simp
    omega
  rw [List.getElem?_append_right (by simp [hlen])]
  rw [hlen]
  simp

theorem histLookup_cons_self (k : Nat) (v : HistoryState)
    (h : List (Nat × HistoryState)) :
    histLookup ((k, v) :: h) k = some v := by
  simp [histLookup, List.find?_cons]

theorem histLookup_cons_ne (k j : Nat) (v : HistoryState)
    (h : List (Nat × HistoryState)) (hne : j ≠ k) :
    histLookup ((k, v) :: h) j = histLookup h j := by
  simp only [histLookup, List.find?_cons]
  have : ((k, v).1 == j) = false := by
    simp
    omega
  rw [this]

theorem histLookup_filter_self (h : List (Nat × HistoryState)) (id : Nat) :
    histLookup (h.filter (fun p => p.1 != id)) id = none := by
  simp only [histLookup, Option.map_eq_none']
  rw [List.find?_eq_none]
  intro x hx
  have := List.of_mem_filter hx
  simp at this ⊢
  omega

theorem histLookup_filter_ne (h : List (Nat × HistoryState)) (id j : Nat)
    (hne : j ≠ id) :
    histLookup (h.filter (fun p => p.1 != id)) j = histLookup h j := by
  induction h with
  | nil => rfl
  | cons p t ih =>
    by_cases hp : p.1 = id
    · have hfilter : (p :: t).filter (fun q => q.1 != id)
          = t.filter (fun q => q.1 != id) := by
        simp [List.filter_cons, hp]
      rw [hfilter, ih]
      have : histLookup (p :: t) j = histLookup t j := by
        obtain ⟨a, b⟩ := p
        simp at hp
        subst hp
        exact histLookup_cons_ne a j b t hne
      rw [this]
    · have hfilter : (p :: t).filter (fun q => q.1 != id)
          = p :: t.filter (fun q => q.1 != id) := by
        simp [List.filter_cons, hp]
      rw [hfilter]
      by_cases hj : p.1 = j
      · obtain ⟨a, b⟩ := p
        simp at hj
        subst hj
        rw [histLookup_cons_self, histLookup_cons_self]
      · obtain ⟨a, b⟩ := p
        simp at hj hp
        rw [histLookup_cons_ne a j b _ (by omega),
          histLookup_cons_ne a j b t (by omega)]
        exact ih

/-- C6.  With an active layer present (at stack position `i`),
`addSketchLayer` inserts exactly one new empty layer immediately above
the active layer, named from the layer counter, bumps the counter,
makes the new layer active, seeds its history with a single blank
snapshot (stack length 1, index 0), grows the layer count by exactly
one, and leaves all pre-existing layers and histories unchanged. -/
theorem C6_addSketchLayer_spec (doc : DocState) (newId : Nat)
    (blank : Raster) (i : Nat)
    (hfind : doc.layers.findIdx?
        (fun l => doc.activeLayerId == some l.id) = some i) :
    (addSketchLayer doc newId blank).layers.length
        = doc.layers.length + 1 ∧
    (addSketchLayer doc newId blank).layers.take (i + 1)
        = doc.layers.take (i + 1) ∧
    (addSketchLayer doc newId blank).layers.drop (i + 2)
        = doc.layers.drop (i + 1) ∧
    (addSketchLayer doc newId blank).layers[i + 1]?
        = some { id := newId, name := layerName doc.layerCounter,
                 isVisible := true, blendMode := "source-over",
                 opacity := 1, points := [] } ∧
    (addSketchLayer doc newId blank).activeLayerId = some newId ∧
    (addSketchLayer doc newId blank).layerCounter
        = doc.layerCounter + 1 ∧
    histLookup (addSketchLayer doc newId blank).history newId
        = some { stack := [blank], index := 0 } ∧
    ∀ j, j ≠ newId →
      histLookup (addSketchLayer doc newId blank).history j
        = histLookup doc.history j := by
  have hi : i < doc.layers.length :=
    (List.findIdx?_eq_some_iff_findIdx_eq.mp hfind).1
  have hk1 : i + 1 ≤ doc.layers.length := hi
  have hFL : findIndexLike
      (fun l => doc.activeLayerId == some l.id) doc.layers = (i : Int) := by
    simp [findIndexLike, hfind]
  have htn : (((i : Int)) + 1).toNat = i + 1 := by omega
  have hlayers : (addSketchLayer doc newId blank).layers
      = spliceInsert doc.layers (i + 1)
          { id := newId, name := layerName doc.layerCounter,
            isVisible := true, blendMode := "source-over",
            opacity := 1, points := [] } := by
    simp only [addSketchLayer, hFL, htn]
  refine ⟨?_, ?_, ?_, ?_, ?_, ?_, ?_, ?_⟩
  · rw [hlayers, spliceInsert_length _ _ _ hk1]
  · rw [hlayers, spliceInsert_take _ _ _ hk1]
  · rw [hlayers, spliceInsert_drop _ _ _ hk1]
  · rw [hlayers, spliceInsert_getElem _ _ _ hk1]
  · simp only [addSketchLayer]
  · simp only [addSketchLayer]
  · simp only [addSketchLayer]
    exact histLookup_cons_self _ _ _
  · intro j hj
    simp only [addSketchLayer]
    exact histLookup_cons_ne _ _ _ _ hj

/-- Concrete document used to witness C6. -/
def c6WitnessDoc : DocState :=
  { layers := [{ id := 10, name := "base", isVisible := true,
                 blendMode := "source-over", opacity := 1, points := [] }],
    activeLayerId := some 10,
    layerCounter := 2,
    history := [(10, { stack := [[0]], index := 0 })] }

theorem C6_witness :
    c6WitnessDoc.layers.findIdx?
        (fun l => c6WitnessDoc.activeLayerId == some l.id) = some 0 ∧
    ((addSketchLayer c6WitnessDoc 99 [0]).layers.length
        = c6WitnessDoc.layers.length + 1 ∧
      (addSketchLayer c6WitnessDoc 99 [0]).layers.take (0 + 1)
        = c6WitnessDoc.layers.take (0 + 1) ∧
      (addSketchLayer c6WitnessDoc 99 [0]).layers.drop (0 + 2)
        = c6WitnessDoc.layers.drop (0 + 1) ∧
      (addSketchLayer c6WitnessDoc 99 [0]).layers[0 + 1]?
        = some { id := 99, name := layerName c6WitnessDoc.layerCounter,
                 isVisible := true, blendMode := "source-over",
                 opacity := 1, points := [] } ∧
      (addSketchLayer c6WitnessDoc 99 [0]).activeLayerId = some 99 ∧
      (addSketchLayer c6WitnessDoc 99 [0]).layerCounter
        = c6WitnessDoc.layerCounter + 1 ∧
      histLookup (addSketchLayer c6WitnessDoc 99 [0]).history 99
        = some { stack := [[0]], index := 0 } ∧
      ∀ j, j ≠ 99 →
        histLookup (addSketchLayer c6WitnessDoc 99 [0]).history j
          = histLookup c6WitnessDoc.history j) :=
  ⟨by decide, C6_addSketchLayer_spec c6WitnessDoc 99 [0] 0 (by decide)⟩

/-- First-match characterization of `findIdx?`, in the `getElem?`
style used by the delete-layer proof. -/
theorem findIdx?_eq_some_of (p : Layer → Bool) (l : List Layer)
    (i : Nat) (a : Layer) (hget : l[i]? = some a) (hp : p a = true)
    (hbefore : ∀ j, j < i → ∀ b, l[j]? = some b → p b = false) :
    l.findIdx? p = some i := by
  induction l generalizing i with
  | nil => simp at hget
  | cons x t ih =>
    cases i with
    | zero =>
      simp at hget
      subst hget
      simp [List.findIdx?_cons, hp]
    | succ n =>
      have hx : p x = false := hbefore 0 (by omega) x (by simp)
      rw [List.findIdx?_cons, if_neg (by simp [hx])]
      rw [List.findIdx?_succ]
      have := ih n (by simpa using hget)
        (fun j hj b hb => hbefore (j + 1) (by omega) b (by simpa using hb))
      rw [this]
      rfl

/-- C7 (amended).  `deleteLayer` is a silent no-op when only one layer
exists; otherwise it removes exactly the addressed layer, discards its
history, leaves every other layer and history unchanged, keeps the
selection when the deleted layer was not active, and — when it was —
re-selects the layer immediately below it, or, when the bottom layer
was deleted, the *new bottom* layer (the one that was immediately
above it), not the new top layer. -/
theorem C7_deleteLayer_amended (doc : DocState) (id : Nat) (i : Nat)
    (L : Layer)
    (hids : (doc.layers.map Layer.id).Nodup)
    (hz : ∀ l ∈ doc.layers, l.id ≠ 0)
    (hget : doc.layers[i]? = some L)
    (hLid : L.id = id) :
    (doc.layers.length ≤ 1 → deleteLayer doc id = doc) ∧
    (1 < doc.layers.length →
      (deleteLayer doc id).layers
          = doc.layers.take i ++ doc.layers.drop (i + 1) ∧
      histLookup (deleteLayer doc id).history id = none ∧
      (∀ j, j ≠ id → histLookup (deleteLayer doc id).history j
          = histLookup doc.history j) ∧
      (doc.activeLayerId ≠ some id →
        (deleteLayer doc id).activeLayerId = doc.activeLayerId) ∧
      (doc.activeLayerId = some id → 0 < i →
        (deleteLayer doc id).activeLayerId
          = doc.layers[i - 1]?.map Layer.id) ∧
      (doc.activeLayerId = some id → i = 0 →
        (deleteLayer doc id).activeLayerId
          = doc.layers[1]?.map Layer.id)) := by
  have hi : i < doc.layers.length := by
    by_contra hcon
    rw [List.getElem?_eq_none (by omega)] at hget
    exact Option.noConfusion hget
  have hgetE : doc.layers[i] = L := by
    have := List.getElem?_eq_some.mp hget
    obtain ⟨h, hEq⟩ := this
    exact hEq
  have hdrop : doc.layers.drop i = L :: doc.layers.drop (i + 1) := by
    rw [List.drop_eq_getElem_cons hi, hgetE]
  have hdecomp : doc.layers
      = doc.layers.take i ++ L :: doc.layers.drop (i + 1) := by
    conv_lhs => rw [← List.take_append_drop i doc.layers]
    rw [hdrop]
  -- the id occurs nowhere outside position i
  have hnodup2 : (doc.layers.take i ++ L :: doc.layers.drop (i + 1)).map
      Layer.id |>.Nodup := by
    rw [← hdecomp]; exact hids
  rw [List.map_append, List.map_cons] at hnodup2
  have hsplit := List.nodup_append.mp hnodup2
  have hLnotA : L.id ∉ (doc.layers.take i).map Layer.id := by
    intro hmem
    exact (hsplit.2.2 hmem) (List.mem_cons_self _ _)
  have hLnotB : L.id ∉ (doc.layers.drop (i + 1)).map Layer.id := by
    have := hsplit.2.1
    exact (List.nodup_cons.mp this).1
  have hA : ∀ x ∈ doc.layers.take i, (x.id != id) = true := by
    intro x hx
    simp only [bne_iff_ne, ne_eq]
    intro hxid
    apply hLnotA
    rw [hLid, ← hxid]
    exact List.mem_map_of_mem Layer.id hx
  have hB : ∀ x ∈ doc.layers.drop (i + 1), (x.id != id) = true := by
    intro x hx
    simp only [bne_iff_ne, ne_eq]
    intro hxid
    apply hLnotB
    rw [hLid, ← hxid]
    exact List.mem_map_of_mem Layer.id hx
  have hAlen : (doc.layers.take i).length = i := by
    simp
    omega
  have hfilter : doc.layers.filter (fun l => l.id != id)
      = doc.layers.take i ++ doc.layers.drop (i + 1) := by
    conv_lhs => rw [hdecomp]
    rw [List.filter_append, List.filter_cons]
    have hLfalse : (L.id != id) = false := by simp [hLid]
    rw [hLfalse]
    simp only [Bool.false_eq_true, if_false]
    rw [List.filter_eq_self.mpr hA, List.filter_eq_self.mpr hB]
  have hfindIdx : doc.layers.findIdx? (fun l => l.id == id) = some i := by
    apply findIdx?_eq_some_of _ _ _ L hget (by simp [hLid])
    intro j hj b hb
    have hbA : b ∈ doc.layers.take i := by
      have hjA : (doc.layers.take i)[j]? = some b := by
        rw [List.getElem?_take_of_lt hj]
        exact hb
      exact List.getElem?_mem hjA
    have := hA b hbA
    simp at this ⊢
    exact this
  have hFL : findIndexLike (fun l => l.id == id) doc.layers = (i : Int) := by
    simp [findIndexLike, hfindIdx]
  refine ⟨?_, ?_⟩
  · intro hle
    simp [deleteLayer, hle]
  · intro hgt
    have hcond : ¬ doc.layers.length ≤ 1 := by omega
    constructor
    · simp only [deleteLayer, if_neg hcond]
      exact hfilter
    constructor
    · simp only [deleteLayer, if_neg hcond]
      exact histLookup_filter_self _ _
    constructor
    · intro j hj
      simp only [deleteLayer, if_neg hcond]
      exact histLookup_filter_ne _ _ _ hj
    constructor
    · intro hne
      simp only [deleteLayer, if_neg hcond]
      have : (doc.activeLayerId == some id) = false := by
        simp [hne]
      rw [this]
      simp
    constructor
    · intro hact hpos
      simp only [deleteLayer, if_neg hcond, hFL]
      have hbeq : (doc.activeLayerId == some id) = true := by
        simp [hact]
      rw [hbeq]
      simp only [if_true]
      have hmax : ((max 0 ((i : Int) - 1))).toNat = i - 1 := by omega
      rw [hmax, hfilter]
      have hlt : i - 1 < (doc.layers.take i).length := by
        rw [hAlen]; omega
      rw [List.getElem?_append_left hlt]
      have hjA : (doc.layers.take i)[i - 1]? = doc.layers[i - 1]? := by
        rw [List.getElem?_take_of_lt (by omega)]
      rw [hjA]
      obtain ⟨l', hl'⟩ : ∃ l', doc.layers[i - 1]? = some l' := by
        have : i - 1 < doc.layers.length := by omega
        exact ⟨doc.layers[i - 1], List.getElem?_eq_getElem this⟩
      rw [hl']
      have hl'mem : l' ∈ doc.layers := List.getElem?_mem hl'
      have : ¬ l'.id = 0 := hz l' hl'mem
      simp [this]
    · intro hact hzero
      subst hzero
      simp only [deleteLayer, if_neg hcond, hFL]
      have hbeq : (doc.activeLayerId == some id) = true := by
        simp [hact]
      rw [hbeq]
      simp only [if_true]
      have hmax : ((max 0 ((0 : Nat) - 1 : Int))).toNat = 0 := by
        norm_num
      rw [hmax, hfilter]
      simp only [List.take_zero, List.nil_append]
      have h0 : (doc.layers.drop 1)[0]? = doc.layers[1]? := by
        rw [List.getElem?_drop]
      rw [h0]
      obtain ⟨l', hl'⟩ : ∃ l', doc.layers[1]? = some l' := by
        exact ⟨doc.layers[1], List.getElem?_eq_getElem (by omega)⟩
      rw [hl']
      have hl'mem : l' ∈ doc.layers := List.getElem?_mem hl'
      have : ¬ l'.id = 0 := hz l' hl'mem
      simp [this]

/-- Bottom layer of the three-layer document used for C7. -/
def c7LayerA : Layer :=
  { id := 1
    name := "A"
    isVisible := true
    blendMode := "source-over"
    opacity := 1
    points := [] }

/-- Middle layer of the three-layer document used for C7. -/
def c7LayerB : Layer :=
  { id := 2
    name := "B"
    isVisible := true
    blendMode := "source-over"
    opacity := 1
    points := [] }

/-- Top layer of the three-layer document used for C7. -/
def c7LayerC : Layer :=
  { id := 3
    name := "C"
    isVisible := true
    blendMode := "source-over"
    opacity := 1
    points := [] }

/-- Three-layer document (bottom `A`, middle `B`, top `C`, bottom
active) used to refute and witness C7. -/
def c7Doc : DocState :=
  { layers := [c7LayerA, c7LayerB, c7LayerC]
    activeLayerId := some 1
    layerCounter := 4
    history := [(1, { stack := [[0]], index := 0 })] }

/-- C7 counterexample.  Deleting the active bottom layer of a
three-layer stack selects the *new bottom* layer (id 2), not the new
top layer (id 3) as the claim states. -/
theorem C7_counterexample_bottom_delete :
    (deleteLayer c7Doc 1).activeLayerId = some 2 ∧
    ((deleteLayer c7Doc 1).layers.getLast?).map Layer.id = some 3 ∧
    (deleteLayer c7Doc 1).activeLayerId
      ≠ ((deleteLayer c7Doc 1).layers.getLast?).map Layer.id := by
  refine ⟨by decide, by decide, by decide⟩

theorem C7_amended_witness :
    (c7Doc.layers.map Layer.id).Nodup ∧
    (∀ l ∈ c7Doc.layers, l.id ≠ 0) ∧
    c7Doc.layers[0]? = some c7LayerA ∧
    c7LayerA.id = 1 ∧
    ((c7Doc.layers.length ≤ 1 → deleteLayer c7Doc 1 = c7Doc) ∧
      (1 < c7Doc.layers.length →
        (deleteLayer c7Doc 1).layers
            = c7Doc.layers.take 0 ++ c7Doc.layers.drop (0 + 1) ∧
        histLookup (deleteLayer c7Doc 1).history 1 = none ∧
        (∀ j, j ≠ 1 → histLookup (deleteLayer c7Doc 1).history j
            = histLookup c7Doc.history j) ∧
        (c7Doc.activeLayerId ≠ some 1 →
          (deleteLayer c7Doc 1).activeLayerId = c7Doc.activeLayerId) ∧
        (c7Doc.activeLayerId = some 1 → 0 < 0 →
          (deleteLayer c7Doc 1).activeLayerId
            = c7Doc.layers[0 - 1]?.map Layer.id) ∧
        (c7Doc.activeLayerId = some 1 → 0 = 0 →
          (deleteLayer c7Doc 1).activeLayerId
            = c7Doc.layers[1]?.map Layer.id))) :=
  ⟨by decide, by decide, by decide, by decide,
    C7_deleteLayer_amended c7Doc 1 0 c7LayerA
      (by decide) (by decide) (by decide) (by decide)⟩

/-! ### Geometry: view transform round trip (C3) and
vanishing-point snapping (C4), modelled over `ℝ`. -/

noncomputable section

/-- The view transform: pan offset, zoom scalar, rotation in
degrees. -/
structure ViewTransform where
  panX : ℝ
  panY : ℝ
  zoom : ℝ
  rotation : ℝ

/-- The forward rendering transform, read off the canvas container JSX
(DrawingCanvas.tsx lines 2814-2826): an outer div with
`translate(pan) scale(zoom)` and `transformOrigin: top left`, and an
inner div with `rotate(rotation)` about `center center`.  A canvas
point is first rotated about the canvas center, then scaled, then
translated; the result is the screen position relative to the
container rect. -/
def canvasToScreen (T : ViewTransform) (W H px py : ℝ) : ℝ × ℝ :=
  let rad := T.rotation * (Real.pi / 180)
  let cx := W / 2
  let cy := H / 2
  let rx := (px - cx) * Real.cos rad - (py - cy) * Real.sin rad + cx
  let ry := (px - cx) * Real.sin rad + (py - cy) * Real.cos rad + cy
  (T.panX + T.zoom * rx, T.panY + T.zoom * ry)

/-- `getCoords` (DrawingCanvas.tsx lines 1623-1660): undo pan, undo
zoom, then rotate by the negated angle about the canvas center.
`sx, sy` are the pointer position relative to the container rect
(`clientX - rect.left`, `clientY - rect.top`). -/
def getCoords (T : ViewTransform) (W H sx sy : ℝ) : ℝ × ℝ :=
  let mouseX := (sx - T.panX) / T.zoom
  let mouseY := (sy - T.panY) / T.zoom
  let rad := -T.rotation * (Real.pi / 180)
  let cos := Real.cos rad
  let sin := Real.sin rad
  let cx := W / 2
  let cy := H / 2
  let translatedX := mouseX - cx
  let translatedY := mouseY - cy
  let unrotatedX := translatedX * cos - translatedY * sin
  let unrotatedY := translatedX * sin + translatedY * cos
  (unrotatedX + cx, unrotatedY + cy)

theorem pan_zoom_cancel (p z r : ℝ) (hz : z ≠ 0) :
    (p + z * r - p) / z = r := by
  field_simp

/-- C3.  For every view transform with zoom in `[0.2, 8]` and every
canvas point, mapping to screen space with the rendering transform and
back with `getCoords` returns the point exactly (in the real-number
model of the floating-point computation). -/
theorem C3_screen_canvas_roundtrip (T : ViewTransform) (W H px py : ℝ)
    (h1 : 0.2 ≤ T.zoom) (h2 : T.zoom ≤ 8) :
    getCoords T W H (canvasToScreen T W H px py).1
      (canvasToScreen T W H px py).2 = (px, py) := by
  have hz : T.zoom ≠ 0 := by
    have : (0 : ℝ) < T.zoom := lt_of_lt_of_le (by norm_num) h1
    exact ne_of_gt this
  have hcs : Real.cos (T.rotation * (Real.pi / 180)) ^ 2
      + Real.sin (T.rotation * (Real.pi / 180)) ^ 2 = 1 :=
    Real.cos_sq_add_sin_sq _
  simp only [canvasToScreen, getCoords]
  have hrad : -T.rotation * (Real.pi / 180)
      = -(T.rotation * (Real.pi / 180)) := by ring
  rw [hrad, Real.cos_neg, Real.sin_neg]
  rw [pan_zoom_cancel _ _ _ hz, pan_zoom_cancel _ _ _ hz]
  rw [Prod.mk.injEq]
  constructor
  · linear_combination (px - W / 2) * hcs
  · linear_combination (py - H / 2) * hcs

theorem C3_witness :
    (0.2 : ℝ) ≤ (⟨3, 4, 1, 0⟩ : ViewTransform).zoom ∧
    (⟨3, 4, 1, 0⟩ : ViewTransform).zoom ≤ 8 ∧
    getCoords ⟨3, 4, 1, 0⟩ 800 600
        (canvasToScreen ⟨3, 4, 1, 0⟩ 800 600 5 6).1
        (canvasToScreen ⟨3, 4, 1, 0⟩ 800 600 5 6).2 = (5, 6) :=
  ⟨by norm_num, by norm_num,
    C3_screen_canvas_roundtrip ⟨3, 4, 1, 0⟩ 800 600 5 6
      (by norm_num) (by norm_num)⟩

/-! #### Vanishing-point snapping -/

/-- A vanishing point: id plus canvas-space coordinates. -/
structure VPr where
  id : Nat
  x : ℝ
  y : ℝ

/-- The three designated axis colors (DrawingCanvas.tsx line 1667). -/
def AXIS_COLORS : List String := ["#ef4444", "#22C55E", "#3b82f6"]

/-- `SNAP_THRESHOLD` (line 1696): a constant 30 canvas-space pixels,
not scaled by zoom. -/
def SNAP_THRESHOLD : ℝ := 30

/-- `Math.hypot`. -/
def hypotR (x y : ℝ) : ℝ := Real.sqrt (x ^ 2 + y ^ 2)

/-- One step of the minimum-distance scan over the vanishing points
(the `bestVP` / `minDistance` loop, lines 1672-1694): starting from
`minDistance = Infinity`, each point strictly closer than the current
best replaces it, so the first point always replaces the empty
accumulator and ties keep the earlier point. -/
def selectMinStep (f : VPr → ℝ) (acc : Option (VPr × ℝ)) (vp : VPr) :
    Option (VPr × ℝ) :=
  match acc with
  | none => some (vp, f vp)
  | some (b, d) => if f vp < d then some (vp, f vp) else some (b, d)

/-- The full minimum-distance scan. -/
def selectMinVP (vps : List VPr) (f : VPr → ℝ) : Option (VPr × ℝ) :=
  vps.foldl (selectMinStep f) none

/-- `getSnappedLineEndPoint` (DrawingCanvas.tsx lines 1662-1722).
Inactive unless the pen color is an axis color and vanishing points
exist.  When the drag is longer than 1 px the per-point distance is
the perpendicular distance from the point to the line through
(start, cursor); otherwise it is the distance from the point to
`start`.  If the minimum distance is under the 30 px threshold and the
chosen point is distinct from `start`, the cursor is projected onto
the ray from `start` through that point. -/
def getSnappedLineEndPoint (penColor : String) (vps : List VPr)
    (startX startY curX curY : ℝ) : (ℝ × ℝ) × Option VPr :=
  if penColor ∈ AXIS_COLORS ∧ vps.length ≠ 0 then
    let distF : VPr → ℝ :=
      if 1 < hypotR (curX - startX) (curY - startY) then
        fun vp =>
          let dx := curX - startX
          let dy := curY - startY
          |dy * vp.x - dx * vp.y + curX * startY - curY * startX|
            / hypotR dx dy
      else
        fun vp => hypotR (vp.x - startX) (vp.y - startY)
    match selectMinVP vps distF with
    | some (bestVP, minDistance) =>
      if minDistance < SNAP_THRESHOLD then
        let dirX := bestVP.x - startX
        let dirY := bestVP.y - startY
        let mag := hypotR dirX dirY
        if 0 < mag then
          let unitDirX := dirX / mag
          let unitDirY := dirY / mag
          let projectionLength :=
            (curX - startX) * unitDirX + (curY - startY) * unitDirY
          ((startX + unitDirX * projectionLength,
            startY + unitDirY * projectionLength), some bestVP)
        else ((curX, curY), none)
      else ((curX, curY), none)
    | none => ((curX, curY), none)
  else ((curX, curY), none)

theorem selectMinVP_mem (vps : List VPr) (f : VPr → ℝ) (b : VPr) (d : ℝ)
    (h : selectMinVP vps f = some (b, d)) : b ∈ vps := by
  have H : ∀ (l : List VPr) (acc : Option (VPr × ℝ)) (b : VPr) (d : ℝ),
      l.foldl (selectMinStep f) acc = some (b, d) →
      b ∈ l ∨ (∃ d0, acc = some (b, d0)) := by
    intro l
    induction l with
    | nil =>
      intro acc b d h
      right
      exact ⟨d, h⟩
    | cons v t ih =>
      intro acc b d h
      rcases ih (selectMinStep f acc v) b d h with hmem | ⟨d0, hacc⟩
      · exact Or.inl (List.mem_cons_of_mem _ hmem)
      · cases acc with
        | none =>
          simp only [selectMinStep] at hacc
          obtain ⟨rfl, _⟩ := Prod.mk.injEq .. ▸ Option.some.inj hacc
          exact Or.inl (List.mem_cons_self _ _)
        | some p =>
          obtain ⟨b1, d1⟩ := p
          simp only [selectMinStep] at hacc
          split_ifs at hacc with hlt
          · obtain ⟨rfl, _⟩ := Prod.mk.injEq .. ▸ Option.some.inj hacc
            exact Or.inl (List.mem_cons_self _ _)
          · obtain ⟨rfl, rfl⟩ := Prod.mk.injEq .. ▸ Option.some.inj hacc
            exact Or.inr ⟨d1, rfl⟩
  rcases H vps none b d h with hmem | ⟨d0, hacc⟩
  · exact hmem
  · exact absurd hacc (by simp)

/-- C4.  Whenever the snap routine reports a snapped vanishing point,
that point is one of the configured vanishing points and the returned
endpoint is collinear with the start point and that vanishing point
(the cross product vanishes); whenever it reports no snap, the cursor
position is returned unchanged. -/
theorem C4_snap_collinear_or_unchanged (penColor : String)
    (vps : List VPr) (sx sy cx cy : ℝ) (pt : ℝ × ℝ) (sv : Option VPr)
    (heq : getSnappedLineEndPoint penColor vps sx sy cx cy = (pt, sv)) :
    (∀ vp, sv = some vp → vp ∈ vps ∧
      (pt.1 - sx) * (vp.y - sy) - (pt.2 - sy) * (vp.x - sx) = 0) ∧
    (sv = none → pt = (cx, cy)) := by
  simp only [getSnappedLineEndPoint] at heq
  split at heq
  · split at heq
    · rename_i bestVP minDistance heqmin
      split at heq
      · split at heq
        · rename_i hthr hmag
          rw [Prod.mk.injEq] at heq
          obtain ⟨hpt, hsv⟩ := heq
          subst hpt
          subst hsv
          constructor
          · intro vp hvp
            obtain rfl : bestVP = vp := Option.some.inj hvp
            constructor
            · exact selectMinVP_mem vps _ _ minDistance heqmin
            · ring
          · intro hnone
            exact Option.noConfusion hnone
        · rw [Prod.mk.injEq] at heq
          obtain ⟨hpt, hsv⟩ := heq
          subst hpt
          subst hsv
          exact ⟨fun vp hvp => Option.noConfusion hvp, fun _ => rfl⟩
      · rw [Prod.mk.injEq] at heq
        obtain ⟨hpt, hsv⟩ := heq
        subst hpt
        subst hsv
        exact ⟨fun vp hvp => Option.noConfusion hvp, fun _ => rfl⟩
    · rw [Prod.mk.injEq] at heq
      obtain ⟨hpt, hsv⟩ := heq
      subst hpt
      subst hsv
      exact ⟨fun vp hvp => Option.noConfusion hvp, fun _ => rfl⟩
  · rw [Prod.mk.injEq] at heq
    obtain ⟨hpt, hsv⟩ := heq
    subst hpt
    subst hsv
    exact ⟨fun vp hvp => Option.noConfusion hvp, fun _ => rfl⟩

theorem C4_witness_eval :
    getSnappedLineEndPoint "#ef4444" [⟨1, 3, 4⟩] 0 0 0 0
      = ((0, 0), some ⟨1, 3, 4⟩) := by
  have h0 : hypotR ((0 : ℝ) - 0) (0 - 0) = 0 := by
    simp [hypotR]
  have h5 : hypotR (3 : ℝ) 4 = 5 := by
    simp only [hypotR]
    rw [show ((3 : ℝ)) ^ 2 + ((4 : ℝ)) ^ 2 = 5 ^ 2 by norm_num]
    exact Real.sqrt_sq (by norm_num)
  simp only [getSnappedLineEndPoint]
  rw [if_pos ⟨by decide, by simp⟩]
  rw [if_neg (by rw [h0]; norm_num)]
  have hsel : selectMinVP [⟨1, 3, 4⟩]
      (fun vp => hypotR (vp.x - 0) (vp.y - 0))
      = some (⟨1, 3, 4⟩, hypotR ((3 : ℝ) - 0) ((4 : ℝ) - 0)) := rfl
  rw [hsel]
  norm_num [h5, SNAP_THRESHOLD]

theorem C4_witness :
    ((⟨1, 3, 4⟩ : VPr) ∈ [(⟨1, 3, 4⟩ : VPr)]) ∧
    (((0 : ℝ), (0 : ℝ)).1 - 0) * ((⟨1, 3, 4⟩ : VPr).y - 0)
      - (((0 : ℝ), (0 : ℝ)).2 - 0) * ((⟨1, 3, 4⟩ : VPr).x - 0) = 0 :=
  (C4_snap_collinear_or_unchanged "#ef4444" [⟨1, 3, 4⟩] 0 0 0 0
      (0, 0) (some ⟨1, 3, 4⟩) C4_witness_eval).1 ⟨1, 3, 4⟩ rfl

/-! ### Stroke renderers: smooth path and variable-width pen (C5) -/

/-- A canvas 2D path command; `strokeAt w` records a `stroke()` call
together with the line width in force when it runs. -/
inductive PathCmd where
  | beginPath : PathCmd
  | moveTo (x y : ℝ) : PathCmd
  | lineTo (x y : ℝ) : PathCmd
  | quadraticCurveTo (cpx cpy x y : ℝ) : PathCmd
  | strokeAt (width : ℝ) : PathCmd

/-- The slice of the `CanvasRenderingContext2D` state the stroke
renderers use, plus the trace of commands issued. -/
structure Ctx2D where
  lineWidth : ℝ
  lineCap : String
  lineJoin : String
  strokeStyle : String
  cmds : List PathCmd

/-- Record one path command on the context. -/
def emit (ctx : Ctx2D) (c : PathCmd) : Ctx2D :=
  { ctx with cmds := ctx.cmds ++ [c] }

/-- A sampled pointer position in canvas space. -/
structure PointR where
  x : ℝ
  y : ℝ

/-- The smoothing loop of `drawPath` (DrawingCanvas.tsx lines
244-256): for each interior point a quadratic segment to the midpoint
with the next point, and a final quadratic segment ending at the last
point. -/
def smoothSegs : List PointR → List PathCmd
  | [a, b] => [PathCmd.quadraticCurveTo a.x a.y b.x b.y]
  | a :: b :: rest =>
      PathCmd.quadraticCurveTo a.x a.y ((a.x + b.x) / 2) ((a.y + b.y) / 2)
        :: smoothSegs (b :: rest)
  | _ => []

/-- `drawPath` (DrawingCanvas.tsx lines 232-260): nothing for an empty
list; a dot or straight segment below 3 points; otherwise the smoothed
quadratic path; one final `stroke()`.  It never modifies
`lineWidth`. -/
def drawPath (ctx : Ctx2D) (points : List PointR) : Ctx2D :=
  match points with
  | [] => ctx
  | p0 :: rest =>
    let ctx1 := emit (emit ctx PathCmd.beginPath) (PathCmd.moveTo p0.x p0.y)
    let ctx2 :=
      if (p0 :: rest).length < 3 then
        let toPoint := if 1 < (p0 :: rest).length then rest.headD p0 else p0
        emit ctx1 (PathCmd.lineTo toPoint.x toPoint.y)
      else
        { ctx1 with cmds := ctx1.cmds ++ smoothSegs rest }
    emit ctx2 (PathCmd.strokeAt ctx2.lineWidth)

/-- The pen-tool context setup effect (DrawingCanvas.tsx lines
1345-1352): stroke style from the pen color, `lineWidth = penSize`,
round caps and joins. -/
def setPenContext (ctx : Ctx2D) (penColor : String) (penSize : ℝ) :
    Ctx2D :=
  { ctx with
      strokeStyle := penColor
      lineWidth := penSize
      lineCap := "round"
      lineJoin := "round" }

/-- Width smoothing factor of the variable-width pen (line 583). -/
def widthSmoothingFactor : ℝ := 0.8

/-- Velocity normalization divisor of the variable-width pen
(line 584). -/
def velocitySensitivity : ℝ := 25

/-- The per-segment loop of `drawVariableWidthPath` (lines 604-631):
width from local velocity, exponentially smoothed, clamped below at
10% of the base size; each segment stroked as its own sub-path; the
final straight segment stroked at the last smoothed width. -/
def vwSegments (baseSize sensitivity : ℝ) (ctx : Ctx2D)
    (pPrev p : PointR) (rest : List PointR) (lastWidth : ℝ) : Ctx2D :=
  match rest with
  | [] =>
    let ctx1 := { ctx with lineWidth := lastWidth }
    let ctx2 := emit ctx1 (PathCmd.lineTo p.x p.y)
    emit ctx2 (PathCmd.strokeAt ctx2.lineWidth)
  | nxt :: rest2 =>
    let nextMid : PointR := ⟨(p.x + nxt.x) / 2, (p.y + nxt.y) / 2⟩
    let distance := hypotR (p.x - pPrev.x) (p.y - pPrev.y)
    let velocity := min (distance / velocitySensitivity) 1
    let targetWidth := baseSize - (baseSize * 0.9) * velocity * sensitivity
    let currentWidth := lastWidth * widthSmoothingFactor
        + targetWidth * (1 - widthSmoothingFactor)
    let ctx1 := { ctx with lineWidth := max (baseSize * 0.1) currentWidth }
    let ctx2 :=
      emit ctx1 (PathCmd.quadraticCurveTo p.x p.y nextMid.x nextMid.y)
    let ctx3 := emit ctx2 (PathCmd.strokeAt ctx2.lineWidth)
    let ctx4 :=
      emit (emit ctx3 PathCmd.beginPath) (PathCmd.moveTo nextMid.x nextMid.y)
    vwSegments baseSize sensitivity ctx4 p nxt rest2 currentWidth

/-- `drawVariableWidthPath` (DrawingCanvas.tsx lines 571-632):
sensitivity 0 (or fewer than 2 points) delegates to `drawPath`
unchanged; short strokes use `drawPath` at `lineWidth = baseSize`;
otherwise the per-segment variable-width loop runs. -/
def drawVariableWidthPath (ctx : Ctx2D) (points : List PointR)
    (baseSize sensitivity : ℝ) : Ctx2D :=
  if sensitivity = 0 ∨ points.length < 2 then drawPath ctx points
  else
    let ctx1 := { ctx with lineCap := "round", lineJoin := "round" }
    if points.length < 3 then
      drawPath { ctx1 with lineWidth := baseSize } points
    else
      match points with
      | p1 :: p2 :: rest =>
        let midPoint : PointR := ⟨(p1.x + p2.x) / 2, (p1.y + p2.y) / 2⟩
        let ctx2 :=
          emit (emit ctx1 PathCmd.beginPath) (PathCmd.moveTo p1.x p1.y)
        let ctx3 := emit ctx2 (PathCmd.lineTo midPoint.x midPoint.y)
        vwSegments baseSize sensitivity ctx3 p1 p2 rest baseSize
      | _ => ctx1

theorem strokeAt_not_mem_smoothSegs (l : List PointR) (w : ℝ) :
    PathCmd.strokeAt w ∉ smoothSegs l := by
  induction l with
  | nil => simp [smoothSegs]
  | cons a t ih =>
    cases t with
    | nil => simp [smoothSegs]
    | cons b t2 =>
      cases t2 with
      | nil => simp [smoothSegs]
      | cons c t3 =>
        have hun : smoothSegs (a :: b :: c :: t3)
            = PathCmd.quadraticCurveTo a.x a.y ((a.x + b.x) / 2)
                ((a.y + b.y) / 2) :: smoothSegs (b :: c :: t3) := rfl
        rw [hun]
        intro hmem
        rcases List.mem_cons.mp hmem with hbad | hrest
        · exact PathCmd.noConfusion hbad
        · exact ih hrest

theorem strokeAt_mem_drawPath (ctx : Ctx2D) (pts : List PointR) (w : ℝ)
    (hw : PathCmd.strokeAt w ∈ (drawPath ctx pts).cmds) :
    PathCmd.strokeAt w ∈ ctx.cmds ∨ w = ctx.lineWidth := by
  cases pts with
  | nil => exact Or.inl hw
  | cons p0 rest =>
    simp only [drawPath, emit] at hw
    split at hw
    · simp at hw
      rcases hw with h | h
      · exact Or.inl h
      · exact Or.inr h
    · simp at hw
      rcases hw with h | h | h
      · exact Or.inl h
      · exact absurd h (strokeAt_not_mem_smoothSegs rest w)
      · exact Or.inr h

/-- C5.  With the pen-tool context (which sets the ambient line width
to the base size), the variable-width pen at sensitivity 0 issues
exactly the command trace of the smooth-path renderer, and every
`stroke()` it performs runs at width exactly `baseSize` — the
variable-width algorithm degenerates to the smooth path at constant
base width. -/
theorem C5_sensitivity_zero_degenerates (ctx : Ctx2D)
    (penColor : String) (points : List PointR) (baseSize : ℝ)
    (hlen : 2 ≤ points.length) (hfresh : ctx.cmds = []) :
    drawVariableWidthPath (setPenContext ctx penColor baseSize) points
        baseSize 0
      = drawPath (setPenContext ctx penColor baseSize) points ∧
    ∀ w, PathCmd.strokeAt w
        ∈ (drawVariableWidthPath (setPenContext ctx penColor baseSize)
            points baseSize 0).cmds →
      w = baseSize := by
  have hdel : drawVariableWidthPath (setPenContext ctx penColor baseSize)
      points baseSize 0
      = drawPath (setPenContext ctx penColor baseSize) points := by
    simp [drawVariableWidthPath]
  refine ⟨hdel, ?_⟩
  intro w hw
  rw [hdel] at hw
  rcases strokeAt_mem_drawPath _ _ _ hw with hin | heq
  · simp [setPenContext, hfresh] at hin
  · simpa [setPenContext] using heq

theorem C5_witness :
    2 ≤ ([⟨0, 0⟩, ⟨1, 0⟩, ⟨2, 0⟩] : List PointR).length ∧
    (⟨1, "butt", "butt", "#000", []⟩ : Ctx2D).cmds = [] ∧
    (drawVariableWidthPath
        (setPenContext ⟨1, "butt", "butt", "#000", []⟩ "#111111" 10)
        [⟨0, 0⟩, ⟨1, 0⟩, ⟨2, 0⟩] 10 0
      = drawPath (setPenContext ⟨1, "butt", "butt", "#000", []⟩
          "#111111" 10) [⟨0, 0⟩, ⟨1, 0⟩, ⟨2, 0⟩] ∧
      ∀ w, PathCmd.strokeAt w
          ∈ (drawVariableWidthPath
              (setPenContext ⟨1, "butt", "butt", "#000", []⟩
                "#111111" 10)
              [⟨0, 0⟩, ⟨1, 0⟩, ⟨2, 0⟩] 10 0).cmds →
        w = 10) :=
  ⟨by simp, rfl,
    C5_sensitivity_zero_degenerates ⟨1, "butt", "butt", "#000", []⟩
      "#111111" [⟨0, 0⟩, ⟨1, 0⟩, ⟨2, 0⟩] 10 (by simp) rfl⟩

end

/-! ### Canvas resize pipeline (C8) and anchor points (C9, C10),
modelled over `ℚ` (the source arithmetic here is exact apart from
`Math.round`). -/

/-- `MIN_CANVAS_DIM` (DrawingCanvas.tsx line 102). -/
def MIN_CANVAS_DIM : ℚ := 200

/-- A vanishing point with canvas-space rational coordinates. -/
structure VanishingPoint where
  id : Nat
  x : ℚ
  y : ℚ
  deriving DecidableEq

/-- Resize handle direction (right edge, bottom edge, corner). -/
inductive ResizeDir where
  | r
  | b
  | br

/-- The released canvas dimensions of an interactive resize
(handleMouseMove of the resize effect, lines 1470-1494): each dragged
axis is clamped to at least `MIN_CANVAS_DIM` independently, the other
axis keeps its start value, and both are rounded. -/
def computeResizeDims (startW startH dx dy : ℚ) (dir : ResizeDir) :
    ℚ × ℚ :=
  let nw :=
    match dir with
    | .r => (max MIN_CANVAS_DIM (startW + dx), startH)
    | .b => (startW, max MIN_CANVAS_DIM (startH + dy))
    | .br => (max MIN_CANVAS_DIM (startW + dx),
        max MIN_CANVAS_DIM (startH + dy))
  (((round nw.1 : ℤ) : ℚ), ((round nw.2 : ℤ) : ℚ))

/-- The vanishing-point remap on resize release (handleMouseUp, lines
1497-1520): when the dimensions changed, every point is scaled by the
width/height ratios; otherwise the array is left alone. -/
def resizeReleaseVPs (oldW oldH newW newH : ℚ)
    (vps : List VanishingPoint) : List VanishingPoint :=
  if oldW ≠ newW ∨ oldH ≠ newH then
    vps.map (fun vp =>
      { vp with x := vp.x * (newW / oldW), y := vp.y * (newH / oldH) })
  else vps

/-- A layer's raster buffer with its pixel dimensions. -/
structure LayerRaster where
  width : ℚ
  height : ℚ
  data : List Nat
  deriving DecidableEq

/-- The post-resize raster rescale (the `useLayoutEffect` at lines
1534-1572): each layer canvas now has the new dimensions; a layer
whose pre-resize backup exists is redrawn by
`drawImage(backup, 0, 0, oldW, oldH, 0, 0, newW, newH)` — a
full-canvas scale, not a crop — via the abstract pixel-scaling
function `scalePixels`; a layer with no readable backup stays blank.
Reading the rescaled pixels back (`getImageData`, which can throw,
hence `Option`) seeds a fresh one-entry history per layer; a failed
read is skipped without aborting the other layers. -/
def resizeRescaleLayers
    (scalePixels : List Nat → ℚ → ℚ → ℚ → ℚ → List Nat)
    (readData : LayerRaster → Option Raster)
    (backups : List (Nat × Option LayerRaster))
    (oldW oldH newW newH : ℚ) :
    List (Nat × LayerRaster) × List (Nat × HistoryState) :=
  let results := backups.map (fun entry =>
    let raster : LayerRaster :=
      match entry.2 with
      | some sk =>
          { width := newW, height := newH,
            data := scalePixels sk.data oldW oldH newW newH }
      | none => { width := newW, height := newH, data := [] }
    (entry.1, raster))
  let newHistory := results.filterMap (fun entry =>
    match readData entry.2 with
    | some d => some (entry.1, ({ stack := [d], index := 0 } : HistoryState))
    | none => none)
  (results, newHistory)

theorem round_cast_ge_200 (x : ℚ) (hx : 200 ≤ x) :
    (200 : ℚ) ≤ ((round x : ℤ) : ℚ) := by
  have h1 : (200 : ℤ) ≤ round x := by
    rw [round_eq]
    apply Int.le_floor.mpr
    push_cast
    linarith
  exact_mod_cast h1

/-- C8.  A released interactive resize clamps both axes independently
to at least 200 px, remaps every vanishing point by the width/height
ratios, produces for every layer a raster of exactly the new
dimensions by a full-canvas scale of its backup, and processes every
layer (unreadable ones are skipped for history seeding, never
aborting the pipeline — the model is a total function). -/
theorem C8_resize_release (startW startH dx dy : ℚ) (dir : ResizeDir)
    (vps : List VanishingPoint)
    (scalePixels : List Nat → ℚ → ℚ → ℚ → ℚ → List Nat)
    (readData : LayerRaster → Option Raster)
    (backups : List (Nat × Option LayerRaster)) (nW nH : ℚ)
    (hW : 200 ≤ startW) (hH : 200 ≤ startH)
    (hW0 : startW ≠ 0) (hH0 : startH ≠ 0)
    (hdims : computeResizeDims startW startH dx dy dir = (nW, nH)) :
    200 ≤ nW ∧ 200 ≤ nH ∧
    resizeReleaseVPs startW startH nW nH vps
      = vps.map (fun vp =>
          { vp with x := vp.x * (nW / startW),
                    y := vp.y * (nH / startH) }) ∧
    (∀ e ∈ (resizeRescaleLayers scalePixels readData backups
        startW startH nW nH).1, e.2.width = nW ∧ e.2.height = nH) ∧
    (resizeRescaleLayers scalePixels readData backups
        startW startH nW nH).1.length = backups.length := by
  have hmaxW : (200 : ℚ) ≤ max MIN_CANVAS_DIM (startW + dx) :=
    le_max_of_le_left (by norm_num [MIN_CANVAS_DIM])
  have hmaxH : (200 : ℚ) ≤ max MIN_CANVAS_DIM (startH + dy) :=
    le_max_of_le_left (by norm_num [MIN_CANVAS_DIM])
  have hbounds : 200 ≤ nW ∧ 200 ≤ nH := by
    cases dir with
    | r =>
      simp only [computeResizeDims, Prod.mk.injEq] at hdims
      obtain ⟨hw, hh⟩ := hdims
      subst hw
      subst hh
      exact ⟨round_cast_ge_200 _ hmaxW, round_cast_ge_200 _ hH⟩
    | b =>
      simp only [computeResizeDims, Prod.mk.injEq] at hdims
      obtain ⟨hw, hh⟩ := hdims
      subst hw
      subst hh
      exact ⟨round_cast_ge_200 _ hW, round_cast_ge_200 _ hmaxH⟩
    | br =>
      simp only [computeResizeDims, Prod.mk.injEq] at hdims
      obtain ⟨hw, hh⟩ := hdims
      subst hw
      subst hh
      exact ⟨round_cast_ge_200 _ hmaxW, round_cast_ge_200 _ hmaxH⟩
  refine ⟨hbounds.1, hbounds.2, ?_, ?_, ?_⟩
  · by_cases hc : startW ≠ nW ∨ startH ≠ nH
    · simp only [resizeReleaseVPs, if_pos hc]
    · push_neg at hc
      obtain ⟨h1, h2⟩ := hc
      subst h1
      subst h2
      simp only [resizeReleaseVPs]
      rw [if_neg (by push_neg; exact ⟨rfl, rfl⟩)]
      have : ∀ vp : VanishingPoint,
          ({ vp with x := vp.x * (startW / startW),
                     y := vp.y * (startH / startH) } : VanishingPoint)
            = vp := by
        intro vp
        rw [div_self hW0, div_self hH0, mul_one, mul_one]
      conv_rhs => rw [show (fun vp : VanishingPoint =>
        { vp with x := vp.x * (startW / startW),
                  y := vp.y * (startH / startH) }) = fun vp => vp from
        funext this]
      simp
  · intro e he
    simp only [resizeRescaleLayers, List.mem_map] at he
    obtain ⟨⟨eid, bk⟩, hmem, hEq⟩ := he
    subst hEq
    cases bk <;> simp
  · simp [resizeRescaleLayers]

theorem c8WitnessDims :
    computeResizeDims 1000 619 (-850) 0 ResizeDir.br = (200, 619) := by
  have hmax1 : max MIN_CANVAS_DIM ((1000 : ℚ) + -850) = 200 := by
    rw [show ((1000 : ℚ) + -850) = 150 by norm_num,
      show MIN_CANVAS_DIM = (200 : ℚ) from rfl]
    exact max_eq_left (by norm_num)
  have hmax2 : max MIN_CANVAS_DIM ((619 : ℚ) + 0) = 619 := by
    rw [show ((619 : ℚ) + 0) = 619 by norm_num,
      show MIN_CANVAS_DIM = (200 : ℚ) from rfl]
    exact max_eq_right (by norm_num)
  simp only [computeResizeDims, hmax1, hmax2]
  rw [show round (200 : ℚ) = 200 from by rw [round_eq]; norm_num,
    show round (619 : ℚ) = 619 from by rw [round_eq]; norm_num]
  norm_num

/-- Concrete resize used to witness C8: drag the corner handle left by
850 px from a 1000×619 canvas, so the width clamps to the 200 px
minimum and the height stays. -/
theorem C8_witness :
    (200 : ℚ) ≤ 1000 ∧ (200 : ℚ) ≤ 619 ∧ (1000 : ℚ) ≠ 0 ∧
    (619 : ℚ) ≠ 0 ∧
    computeResizeDims 1000 619 (-850) 0 ResizeDir.br = (200, 619) ∧
    ((200 : ℚ) ≤ 200 ∧ (200 : ℚ) ≤ 619 ∧
      resizeReleaseVPs 1000 619 200 619 [⟨1, 100, 100⟩]
        = ([⟨1, 100, 100⟩] : List VanishingPoint).map (fun vp =>
            { vp with x := vp.x * ((200 : ℚ) / 1000),
                      y := vp.y * ((619 : ℚ) / 619) }) ∧
      (∀ e ∈ (resizeRescaleLayers (fun d _ _ _ _ => d) (fun _ => none)
          [(5, some ⟨1000, 619, [1, 2]⟩), (6, none)]
          1000 619 200 619).1, e.2.width = 200 ∧ e.2.height = 619) ∧
      (resizeRescaleLayers (fun d _ _ _ _ => d) (fun _ => none)
          [(5, some ⟨1000, 619, [1, 2]⟩), (6, none)]
          1000 619 200 619).1.length
        = ([(5, some ⟨1000, 619, [1, 2]⟩), (6, none)] :
            List (Nat × Option LayerRaster)).length) :=
  ⟨by norm_num, by norm_num, by norm_num, by norm_num, c8WitnessDims,
    C8_resize_release 1000 619 (-850) 0 ResizeDir.br [⟨1, 100, 100⟩]
      (fun d _ _ _ _ => d) (fun _ => none)
      [(5, some ⟨1000, 619, [1, 2]⟩), (6, none)] 200 619
      (by norm_num) (by norm_num) (by norm_num) (by norm_num)
      c8WitnessDims⟩

/-! ### Anchor (character) points: placement, dragging, resolution -/

/-- The `point_placer` branch of `startDrawing` (DrawingCanvas.tsx
lines 1980-2020): the stored position is the fractional pair
`(coords.x / W * 100, coords.y / H * 100)`, each axis clamped to
`[0, 100]` by `Math.max(0, Math.min(100, _))`. -/
def placeCharacterPointCoords (coordsX coordsY W H : ℚ) : ℚ × ℚ :=
  let x := coordsX / W * 100
  let y := coordsY / H * 100
  (max 0 (min 100 x), max 0 (min 100 y))

/-- The `draggingPoint` branch of `handleMouseMove` (lines 2207-2229):
identical fractional computation and clamping. -/
def dragCharacterPointCoords (coordsX coordsY W H : ℚ) : ℚ × ℚ :=
  let newX := coordsX / W * 100
  let newY := coordsY / H * 100
  (max 0 (min 100 newX), max 0 (min 100 newY))

/-- How a stored fractional point resolves to a pixel: rendered at
CSS `left: x%`, `top: y%` of the canvas container (lines 2867-2868). -/
def resolvePointPixel (px py W H : ℚ) : ℚ × ℚ :=
  (px / 100 * W, py / 100 * H)

/-- The document-level state touched by a resize release: dimensions
and vanishing points change; layers — and hence their stored anchor
points — are not touched (the release handler at lines 1497-1520 only
calls `setCanvasDimensions` and `setVanishingPoints`). -/
structure CanvasDoc where
  width : ℚ
  height : ℚ
  vanishingPoints : List VanishingPoint
  layers : List Layer
  deriving DecidableEq

/-- Resize release at document level. -/
def resizeReleaseDoc (doc : CanvasDoc) (newW newH : ℚ) : CanvasDoc :=
  { width := newW,
    height := newH,
    vanishingPoints := resizeReleaseVPs doc.width doc.height newW newH
      doc.vanishingPoints,
    layers := doc.layers }

/-- C9.  An anchor point placed at an in-bounds canvas pixel is stored
as the fractional pair `(px/W·100, py/H·100)` (the clamps are
identities in bounds); a resize release leaves every layer — and hence
every stored anchor point — unchanged; and the stored fraction
re-resolves on the resized canvas to the proportionally same pixel
`(px·W'/W, py·H'/H)`. -/
theorem C9_anchor_fractional_resize_stable (px py W H nW nH : ℚ)
    (doc : CanvasDoc)
    (hx0 : 0 ≤ px) (hxW : px ≤ W) (hy0 : 0 ≤ py) (hyH : py ≤ H)
    (hW : 0 < W) (hH : 0 < H) :
    placeCharacterPointCoords px py W H
        = (px / W * 100, py / H * 100) ∧
    (resizeReleaseDoc doc nW nH).layers = doc.layers ∧
    resolvePointPixel (px / W * 100) (py / H * 100) nW nH
        = (px * nW / W, py * nH / H) := by
  refine ⟨?_, rfl, ?_⟩
  · have hx1 : px / W * 100 ≤ 100 := by
      have : px / W ≤ 1 := (div_le_one hW).mpr hxW
      linarith
    have hx2 : 0 ≤ px / W * 100 := by positivity
    have hy1 : py / H * 100 ≤ 100 := by
      have : py / H ≤ 1 := (div_le_one hH).mpr hyH
      linarith
    have hy2 : 0 ≤ py / H * 100 := by positivity
    simp only [placeCharacterPointCoords]
    rw [min_eq_right hx1, max_eq_right hx2,
      min_eq_right hy1, max_eq_right hy2]
  · simp only [resolvePointPixel, Prod.mk.injEq]
    constructor <;> ring

theorem C9_witness :
    (0 : ℚ) ≤ 250 ∧ (250 : ℚ) ≤ 1000 ∧ (0 : ℚ) ≤ 123 ∧
    (123 : ℚ) ≤ 619 ∧ (0 : ℚ) < 1000 ∧ (0 : ℚ) < 619 ∧
    (placeCharacterPointCoords 250 123 1000 619
        = ((250 : ℚ) / 1000 * 100, (123 : ℚ) / 619 * 100) ∧
      (resizeReleaseDoc ⟨1000, 619, [], []⟩ 2000 1238).layers
        = (⟨1000, 619, [], []⟩ : CanvasDoc).layers ∧
      resolvePointPixel ((250 : ℚ) / 1000 * 100) ((123 : ℚ) / 619 * 100)
          2000 1238
        = ((250 : ℚ) * 2000 / 1000, (123 : ℚ) * 1238 / 619)) :=
  ⟨by norm_num, by norm_num, by norm_num, by norm_num, by norm_num,
    by norm_num,
    C9_anchor_fractional_resize_stable 250 123 1000 619 2000 1238
      ⟨1000, 619, [], []⟩ (by norm_num) (by norm_num) (by norm_num)
      (by norm_num) (by norm_num) (by norm_num)⟩

/-- C10.  Whatever canvas-space position the pointer event maps to —
including positions far outside the canvas — the stored anchor-point
coordinates lie in `[0, 100]` on both axes, both on placement and
while dragging. -/
theorem C10_anchor_coords_clamped (coordsX coordsY W H : ℚ) :
    (0 ≤ (placeCharacterPointCoords coordsX coordsY W H).1 ∧
      (placeCharacterPointCoords coordsX coordsY W H).1 ≤ 100) ∧
    (0 ≤ (placeCharacterPointCoords coordsX coordsY W H).2 ∧
      (placeCharacterPointCoords coordsX coordsY W H).2 ≤ 100) ∧
    (0 ≤ (dragCharacterPointCoords coordsX coordsY W H).1 ∧
      (dragCharacterPointCoords coordsX coordsY W H).1 ≤ 100) ∧
    (0 ≤ (dragCharacterPointCoords coordsX coordsY W H).2 ∧
      (dragCharacterPointCoords coordsX coordsY W H).2 ≤ 100) := by
  simp only [placeCharacterPointCoords, dragCharacterPointCoords]
  refine ⟨⟨le_max_left _ _, ?_⟩, ⟨le_max_left _ _, ?_⟩,
    ⟨le_max_left _ _, ?_⟩, ⟨le_max_left _ _, ?_⟩⟩ <;>
    exact max_le (by norm_num) (min_le_left _ _)

end LayoutCanvas
